import Mathlib

/-!
# go-bouncer: the presenter factory

A shallow embedding of `bouncer/presenter/presenter.go`: the `Presenter`
interface and the factory `GetPresenter`, together with models of the
collaborators that the factory and the interface refer to (the result record,
the option constants, the output sink and the three format renderers).
Text is a list of characters throughout.
-/

namespace bouncer

/-- Modelled from the spec: the declaration of the evaluation outcome of a
dependency is missing from the sources; the spec gives it as a categorical
value, allowed / denied / unknown. -/
inductive Outcome
  | allowed
  | denied
  | unknown
  deriving DecidableEq, Repr

/-- Modelled from the spec: the declaration of `bouncer.LicenseResult` is
missing from the sources; the spec gives one result as a dependency
identifier, a detected license identifier (possibly empty) and an outcome. -/
structure LicenseResult where
  dependency : String
  license : String
  outcome : Outcome
  deriving DecidableEq, Repr

end bouncer

namespace ascii

/-- The line feed character. -/
def lf : Char := Char.ofNat 10

/-- The carriage return character. -/
def cr : Char := Char.ofNat 13

/-- The horizontal tab character. -/
def tab : Char := Char.ofNat 9

/-- The double quote character. -/
def dquote : Char := Char.ofNat 34

/-- The comma character. -/
def comma : Char := Char.ofNat 44

/-- The colon character. -/
def colon : Char := Char.ofNat 58

/-- The backslash character. -/
def backslash : Char := Char.ofNat 92

/-- The opening square bracket. -/
def lbracket : Char := Char.ofNat 91

/-- The closing square bracket. -/
def rbracket : Char := Char.ofNat 93

/-- The opening curly bracket. -/
def lbrace : Char := Char.ofNat 123

/-- The closing curly bracket. -/
def rbrace : Char := Char.ofNat 125

end ascii

namespace bouncer

/-- Modelled from the spec: the serialisation of an outcome is missing from
the sources; the spec asks for the stable string tokens allowed, denied and
unknown. -/
def Outcome.token : Outcome → List Char
  | Outcome.allowed => "allowed".toList
  | Outcome.denied => "denied".toList
  | Outcome.unknown => "unknown".toList

end bouncer

namespace io

/-- Modelled from the spec: a failure reported by the sink; it records which
call of `Write` was rejected. -/
structure WriteError where
  call : Nat
  deriving DecidableEq, Repr

/-- Modelled from the spec: the abstract writable sink (`io.Writer`), which is
outside the sources. A sink holds what has reached it so far and decides, from
the position of a call and the text offered, whether it accepts that write.
`calls` counts the calls of `Write` and `rejected` those that were refused. -/
structure Writer where
  written : List Char
  calls : Nat
  rejected : Nat
  accepts : Nat → List Char → Bool

/-- One call of `Write`: an accepted write appends the whole text and returns
no error; a rejected write returns an error (nothing is appended). -/
def Writer.Write (w : Writer) (p : List Char) : Writer × Option WriteError :=
  if w.accepts w.calls p then
    ({ w with written := w.written ++ p, calls := w.calls + 1 }, none)
  else
    ({ w with calls := w.calls + 1, rejected := w.rejected + 1 }, some { call := w.calls })

/-- An empty sink that accepts every write. -/
def Writer.buffer : Writer :=
  { written := [], calls := 0, rejected := 0, accepts := fun _ _ => true }

/-- An empty sink that rejects the call of `Write` with position `n` and
accepts every other. -/
def Writer.failingAt (n : Nat) : Writer :=
  { written := [], calls := 0, rejected := 0, accepts := fun i _ => decide (i ≠ n) }

/-- Write the pieces of a document in order; the first error stops the
rendering and is returned. -/
def Writer.WriteAll : Writer → List (List Char) → Writer × Option WriteError
  | w, [] => (w, none)
  | w, p :: ps =>
    match w.Write p with
    | (w1, none) => Writer.WriteAll w1 ps
    | (w1, some e) => (w1, some e)

end io

namespace csv

/-- Modelled from the spec: the CSV renderer type `csv.Presenter` is missing
from the sources; a renderer holds the result list it was constructed from. -/
structure Presenter where
  results : List bouncer.LicenseResult
  deriving DecidableEq, Repr

/-- Modelled from the spec: the constructor `csv.NewPresenter` is missing from
the sources; it captures the result list it is given. -/
def NewPresenter (results : List bouncer.LicenseResult) : Presenter :=
  { results := results }

/-- Modelled from the spec: a field must be quoted when it contains the
delimiter, the quote character or a line break. -/
def fieldNeedsQuotes (field : List Char) : Bool :=
  field.any (fun c =>
    c == ascii.comma || c == ascii.dquote || c == ascii.lf || c == ascii.cr)

/-- Modelled from the spec: inside a quoted field every quote character is
doubled (standard CSV quoting). -/
def escapeQuotes : List Char → List Char
  | [] => []
  | c :: cs =>
    if c = ascii.dquote then ascii.dquote :: ascii.dquote :: escapeQuotes cs
    else c :: escapeQuotes cs

/-- Modelled from the spec: one field as it is written, enclosed in quotes
when it needs them. -/
def encodeField (field : List Char) : List Char :=
  if fieldNeedsQuotes field then
    ascii.dquote :: (escapeQuotes field ++ [ascii.dquote])
  else field

/-- Modelled from the spec: one row, its fields separated by commas and ended
by a line feed. -/
def encodeRecord : List (List Char) → List Char
  | [] => [ascii.lf]
  | [field] => encodeField field ++ [ascii.lf]
  | field :: next :: more =>
    encodeField field ++ ascii.comma :: encodeRecord (next :: more)

/-- Modelled from the spec: the header row names the fields dependency,
license, outcome. -/
def header : List (List Char) :=
  ["dependency".toList, "license".toList, "outcome".toList]

/-- Modelled from the spec: the fields of the data row of one result. -/
def fields (r : bouncer.LicenseResult) : List (List Char) :=
  [r.dependency.toList, r.license.toList, r.outcome.token]

/-- Modelled from the spec: the rows of the document, the header row followed
by one data row for each result in input order. -/
def rows (results : List bouncer.LicenseResult) : List (List (List Char)) :=
  header :: results.map fields

/-- Modelled from the spec: the method `Present` of the CSV renderer, missing
from the sources. It writes the header row and then one data row for each
result, and returns the first error of the sink. -/
def Presenter.Present (p : Presenter) (output : io.Writer) :
    io.Writer × Option io.WriteError :=
  output.WriteAll ((rows p.results).map encodeRecord)

/-- The states of a reader of CSV text: at the start of a field, inside an
unquoted field, inside a quoted field, after a quote character met inside a
quoted field, and after a carriage return met outside quotes. -/
inductive Mode
  | fieldStart
  | unquoted
  | quoted
  | quoteSeen
  | crSeen
  deriving DecidableEq, Repr

/-- The state of a reader of CSV text: its mode, the characters of the field
being read (last first), the fields of the row being read (last first) and
the rows read so far (last first). -/
structure Reader where
  mode : Mode
  field : List Char
  record : List (List Char)
  records : List (List (List Char))
  deriving DecidableEq, Repr

/-- The field being read is complete; the next character starts a field. -/
def Reader.endField (p : Reader) : Reader :=
  { mode := Mode.fieldStart, field := [], record := p.field.reverse :: p.record,
    records := p.records }

/-- The row being read is complete; the next character starts a row. -/
def Reader.endRecord (p : Reader) : Reader :=
  { mode := Mode.fieldStart, field := [], record := [],
    records := (p.field.reverse :: p.record).reverse :: p.records }

/-- Modelled from the spec: a standard CSV parser (RFC 4180) reading one
character. A comma ends a field and a line feed, alone or after a carriage
return, ends a row; a quoted field runs to its closing quote, a doubled quote
inside it standing for one quote character; a quote character inside an
unquoted field and any other character after a closing quote are errors. -/
def Reader.step (p : Reader) (c : Char) : Option Reader :=
  match p.mode with
  | Mode.fieldStart =>
    if c = ascii.dquote then some { p with mode := Mode.quoted }
    else if c = ascii.comma then some p.endField
    else if c = ascii.lf then some p.endRecord
    else if c = ascii.cr then some { p with mode := Mode.crSeen }
    else some { p with mode := Mode.unquoted, field := c :: p.field }
  | Mode.unquoted =>
    if c = ascii.dquote then none
    else if c = ascii.comma then some p.endField
    else if c = ascii.lf then some p.endRecord
    else if c = ascii.cr then some { p with mode := Mode.crSeen }
    else some { p with field := c :: p.field }
  | Mode.quoted =>
    if c = ascii.dquote then some { p with mode := Mode.quoteSeen }
    else some { p with field := c :: p.field }
  | Mode.quoteSeen =>
    if c = ascii.dquote then some { p with mode := Mode.quoted, field := c :: p.field }
    else if c = ascii.comma then some p.endField
    else if c = ascii.lf then some p.endRecord
    else if c = ascii.cr then some { p with mode := Mode.crSeen }
    else none
  | Mode.crSeen =>
    if c = ascii.lf then some p.endRecord else none

/-- The end of the text: an open quoted field and a carriage return without
its line feed are errors, and a last row without a line break is complete. -/
def Reader.finish (p : Reader) : Option (List (List (List Char))) :=
  match p.mode with
  | Mode.quoted => none
  | Mode.crSeen => none
  | Mode.fieldStart =>
    if p.record = [] then some p.records.reverse else some p.endRecord.records.reverse
  | Mode.unquoted => some p.endRecord.records.reverse
  | Mode.quoteSeen => some p.endRecord.records.reverse

/-- Read the characters of a text in order from a given state. -/
def Reader.run : Reader → List Char → Option (List (List (List Char)))
  | p, [] => p.finish
  | p, c :: cs =>
    match p.step c with
    | none => none
    | some q => Reader.run q cs

/-- The state of a reader at the start of a field, with the fields of the
row being read and the rows read so far. -/
def Reader.start (record : List (List Char)) (records : List (List (List Char))) : Reader :=
  { mode := Mode.fieldStart, field := [], record := record, records := records }

/-- The state of a reader after a delimiter: a comma ends the field, any other
delimiter (the line feed) ends the row. -/
def Reader.close (d : Char) (p : Reader) : Reader :=
  if d = ascii.comma then p.endField else p.endRecord

/-- Modelled from the spec: decode a CSV document into its rows of fields. -/
def decode (doc : List Char) : Option (List (List (List Char))) :=
  Reader.run (Reader.start [] []) doc

/-- The field in column `col` of row `row` of a decoded document. -/
def cell (decoded : Option (List (List (List Char)))) (row col : Nat) : Option String :=
  match decoded with
  | none => none
  | some rs =>
    match rs.get? row with
    | none => none
    | some fs =>
      match fs.get? col with
      | none => none
      | some f => some (String.mk f)

end csv

namespace json

/-- Modelled from the spec: the JSON renderer type `json.Presenter` is missing
from the sources; a renderer holds the result list it was constructed from. -/
structure Presenter where
  results : List bouncer.LicenseResult
  deriving DecidableEq, Repr

/-- Modelled from the spec: the constructor `json.NewPresenter` is missing
from the sources; it captures the result list it is given. -/
def NewPresenter (results : List bouncer.LicenseResult) : Presenter :=
  { results := results }

/-- The hexadecimal digit of a number below sixteen. -/
def hexDigit (n : Nat) : Char :=
  if n < 10 then Char.ofNat (48 + n) else Char.ofNat (87 + n)

/-- Modelled from the spec: one character inside a JSON string. The quote and
the backslash are preceded by a backslash and a control character is written
as a six-character unicode escape (standard JSON). -/
def escapeChar (c : Char) : List Char :=
  if c = ascii.dquote then [ascii.backslash, ascii.dquote]
  else if c = ascii.backslash then [ascii.backslash, ascii.backslash]
  else if c.toNat < 32 then
    [ascii.backslash, Char.ofNat 117, Char.ofNat 48, Char.ofNat 48,
      hexDigit (c.toNat / 16), hexDigit (c.toNat % 16)]
  else [c]

/-- Modelled from the spec: a JSON string, between quotes. -/
def encodeString (s : List Char) : List Char :=
  ascii.dquote :: ((s.map escapeChar).flatten ++ [ascii.dquote])

/-- Modelled from the spec: one member of an object, a fixed key and a string
value. -/
def encodeMember (key : String) (value : List Char) : List Char :=
  encodeString key.toList ++ ascii.colon :: encodeString value

/-- Modelled from the spec: the object of one result, with the fixed keys
dependency, license and outcome in that order. -/
def encodeResult (r : bouncer.LicenseResult) : List Char :=
  ascii.lbrace :: (encodeMember "dependency" r.dependency.toList ++
    ascii.comma :: (encodeMember "license" r.license.toList ++
    ascii.comma :: (encodeMember "outcome" r.outcome.token ++ [ascii.rbrace])))

/-- The elements of an array, separated by commas. -/
def encodeElements : List (List Char) → List Char
  | [] => []
  | [e] => e
  | e :: next :: more => e ++ ascii.comma :: encodeElements (next :: more)

/-- Modelled from the spec: the document is a single JSON array with one
object for each result in input order; no result gives the empty array. -/
def document (results : List bouncer.LicenseResult) : List Char :=
  ascii.lbracket :: (encodeElements (results.map encodeResult) ++ [ascii.rbracket])

/-- Modelled from the spec: the method `Present` of the JSON renderer, missing
from the sources. It writes the whole document in one write and returns the
error of the sink. -/
def Presenter.Present (p : Presenter) (output : io.Writer) :
    io.Writer × Option io.WriteError :=
  output.WriteAll [document p.results]

end json

namespace text

/-- Modelled from the spec: the text renderer type `text.Presenter` is missing
from the sources; a renderer holds the result list it was constructed from. -/
structure Presenter where
  results : List bouncer.LicenseResult
  deriving DecidableEq, Repr

/-- Modelled from the spec: the constructor `text.NewPresenter` is missing
from the sources; it captures the result list it is given. -/
def NewPresenter (results : List bouncer.LicenseResult) : Presenter :=
  { results := results }

/-- Modelled from the spec: a missing license identifier is rendered as the
explicit placeholder unknown, never as a blank. -/
def licenseOrPlaceholder (license : List Char) : List Char :=
  if license = [] then "unknown".toList else license

/-- Modelled from the spec: the line of one result, its dependency
identifier, license identifier and outcome in that order, separated by tabs
and ended by a line feed. -/
def line (r : bouncer.LicenseResult) : List Char :=
  r.dependency.toList ++ ascii.tab :: (licenseOrPlaceholder r.license.toList ++
    ascii.tab :: (r.outcome.token ++ [ascii.lf]))

/-- Modelled from the spec: the method `Present` of the text renderer, missing
from the sources. It writes one line for each result in input order and
returns the first error of the sink; no result gives the empty document. -/
def Presenter.Present (p : Presenter) (output : io.Writer) :
    io.Writer × Option io.WriteError :=
  output.WriteAll (p.results.map line)

end text

namespace presenter

/-- Modelled from the spec: the declaration of the selector type `Option` and
of its constants is missing from the sources. The selector type is a parameter
`Opt` (any type whose values can be compared, as the operand of a Go `switch`
must be), and the three constants that `GetPresenter` names are the fields of
this record. -/
structure Options (Opt : Type) where
  CSVPresenter : Opt
  JSONPresenter : Opt
  TextPresenter : Opt

/-- The three constants are pairwise different values, as the members of an
enumeration are (Go refuses a `switch` that repeats a constant case). -/
def Options.Distinct {Opt : Type} (k : Options Opt) : Prop :=
  k.CSVPresenter ≠ k.JSONPresenter ∧ k.CSVPresenter ≠ k.TextPresenter ∧
    k.JSONPresenter ≠ k.TextPresenter

/-- The option is one of the three constants of the enumeration. -/
def Options.Recognized {Opt : Type} (k : Options Opt) (option : Opt) : Prop :=
  option = k.CSVPresenter ∨ option = k.JSONPresenter ∨ option = k.TextPresenter

instance {Opt : Type} [DecidableEq Opt] (k : Options Opt) : Decidable k.Distinct :=
  inferInstanceAs (Decidable (k.CSVPresenter ≠ k.JSONPresenter ∧
    k.CSVPresenter ≠ k.TextPresenter ∧ k.JSONPresenter ≠ k.TextPresenter))

instance {Opt : Type} [DecidableEq Opt] (k : Options Opt) (option : Opt) :
    Decidable (k.Recognized option) :=
  inferInstanceAs (Decidable (option = k.CSVPresenter ∨ option = k.JSONPresenter ∨
    option = k.TextPresenter))

/-- A value of the interface type `Presenter` (presenter.go, lines 12-14): the
nil interface value, or a renderer of one of the three implementing types. -/
inductive Presenter
  | nil
  | ofCSV (p : csv.Presenter)
  | ofJSON (p : json.Presenter)
  | ofText (p : text.Presenter)
  deriving DecidableEq, Repr

/-- The output formats, one for each implementing type of `Presenter`. -/
inductive Format
  | csv
  | json
  | text
  deriving DecidableEq, Repr

/-- The format of the renderer held by an interface value (its dynamic type);
the nil interface value holds none. -/
def Presenter.format : Presenter → Option Format
  | Presenter.nil => none
  | Presenter.ofCSV _ => some Format.csv
  | Presenter.ofJSON _ => some Format.json
  | Presenter.ofText _ => some Format.text

/-- The result list that the renderer held by an interface value is bound to;
the nil interface value is bound to none. -/
def Presenter.bound : Presenter → Option (List bouncer.LicenseResult)
  | Presenter.nil => none
  | Presenter.ofCSV p => some p.results
  | Presenter.ofJSON p => some p.results
  | Presenter.ofText p => some p.results

/-- The factory `GetPresenter` (presenter.go, lines 16-28): a `switch` on the
option whose cases are tried in the order written, with `default: return nil`. -/
def GetPresenter {Opt : Type} [DecidableEq Opt] (k : Options Opt) (option : Opt)
    (results : List bouncer.LicenseResult) : Presenter :=
  if option = k.CSVPresenter then
    Presenter.ofCSV (csv.NewPresenter results)
  else if option = k.JSONPresenter then
    Presenter.ofJSON (json.NewPresenter results)
  else if option = k.TextPresenter then
    Presenter.ofText (text.NewPresenter results)
  else
    Presenter.nil

/-- The method call `p.Present(output)` on an interface value
(presenter.go, lines 12-14). The call is dispatched to the renderer that the
value holds; on the nil interface value there is no renderer to call and the
program panics with a nil dereference, which is the result `none`. -/
def Presenter.Present (p : Presenter) (output : io.Writer) :
    Option (io.Writer × Option io.WriteError) :=
  match p with
  | Presenter.nil => none
  | Presenter.ofCSV r => some (r.Present output)
  | Presenter.ofJSON r => some (r.Present output)
  | Presenter.ofText r => some (r.Present output)

/-- An example declaration of the constants over the natural numbers, with 0
left as a value outside the enumeration. -/
def Options.sample : Options Nat :=
  { CSVPresenter := 3, JSONPresenter := 1, TextPresenter := 2 }

/-- A renderer instance as it lives in the memory of the running program: a
value of one of the three implementing types of `Presenter`. -/
inductive Instance
  | csv (p : csv.Presenter)
  | json (p : json.Presenter)
  | text (p : text.Presenter)
  deriving DecidableEq, Repr

/-- The interface value that refers to an instance, read through the
reference. -/
def Instance.toPresenter : Instance → Presenter
  | Instance.csv p => Presenter.ofCSV p
  | Instance.json p => Presenter.ofJSON p
  | Instance.text p => Presenter.ofText p

/-- The state of the running program that a call of the factory starts in and
leaves behind: the renderer instances constructed so far, each at the address
given by its position. -/
structure Heap where
  instances : List Instance
  deriving DecidableEq, Repr

/-- An interface value of type `Presenter` as the running program holds it:
nil, or a reference to an instance in memory. Two references are the same
value (Go `==`) when they are the same address. -/
inductive Value
  | nil
  | ref (address : Nat)
  deriving DecidableEq, Repr

/-- Modelled from the spec: the constructors are missing from the sources; a
constructor produces one new renderer instance. The instance is placed at the
next free address and the reference to it is returned. -/
def Heap.new (h : Heap) (x : Instance) : Value × Heap :=
  (Value.ref h.instances.length, { instances := h.instances ++ [x] })

/-- What an interface value stands for in a given state: nil, or the renderer
found at the address (no result for an address that holds nothing). -/
def Heap.load (h : Heap) : Value → Option Presenter
  | Value.nil => some Presenter.nil
  | Value.ref a =>
    match h.instances.get? a with
    | none => none
    | some x => some x.toPresenter

/-- The factory `GetPresenter` (presenter.go, lines 16-28) as a step of the
running program: the same `switch`, started in a state `h`. Each case calls
the constructor of its format, which places a new instance in memory, and
returns the reference to it; the default case returns nil and leaves the state
as it was. The result is the value returned and the state after the call. -/
def GetPresenterIn {Opt : Type} [DecidableEq Opt] (k : Options Opt) (option : Opt)
    (results : List bouncer.LicenseResult) (h : Heap) : Value × Heap :=
  if option = k.CSVPresenter then
    h.new (Instance.csv (csv.NewPresenter results))
  else if option = k.JSONPresenter then
    h.new (Instance.json (json.NewPresenter results))
  else if option = k.TextPresenter then
    h.new (Instance.text (text.NewPresenter results))
  else
    (Value.nil, h)

/-- The outcome of one call of the factory started in the state `h`: what the
returned value stands for in the state that the call leaves behind. -/
def outcome {Opt : Type} [DecidableEq Opt] (k : Options Opt) (option : Opt)
    (results : List bouncer.LicenseResult) (h : Heap) : Option Presenter :=
  (GetPresenterIn k option results h).2.load (GetPresenterIn k option results h).1

end presenter

namespace io

/-- On a sink that accepts every write, writing the pieces of a document
succeeds and appends all of them, in order. -/
theorem Writer.WriteAll_accepting (ps : List (List Char)) :
    ∀ w : Writer, (∀ i p, w.accepts i p = true) →
      w.WriteAll ps =
        ({ w with written := w.written ++ ps.flatten, calls := w.calls + ps.length }, none) := by
  induction ps with
  | nil => intro w _; simp [Writer.WriteAll]
  | cons p ps ih =>
    intro w hacc
    have hw : w.Write p = ({ w with written := w.written ++ p, calls := w.calls + 1 }, none) := by
      simp [Writer.Write, hacc]
    rw [Writer.WriteAll, hw]
    simp only
    rw [ih { w with written := w.written ++ p, calls := w.calls + 1 } (fun i q => hacc i q)]
    simp [List.append_assoc, Nat.add_assoc, Nat.add_comm 1]

/-- Writing the pieces of a document returns no error only when the sink has
rejected none of the writes. -/
theorem Writer.WriteAll_rejected (ps : List (List Char)) :
    ∀ w : Writer, (w.WriteAll ps).2 = none → (w.WriteAll ps).1.rejected = w.rejected := by
  induction ps with
  | nil => intro w _; simp [Writer.WriteAll]
  | cons p ps ih =>
    intro w
    by_cases ha : w.accepts w.calls p = true
    · have hw : w.Write p =
          ({ w with written := w.written ++ p, calls := w.calls + 1 }, none) := by
        simp [Writer.Write, ha]
      rw [Writer.WriteAll, hw]
      simp only
      intro h
      rw [ih _ h]
    · have hw : w.Write p =
          ({ w with calls := w.calls + 1, rejected := w.rejected + 1 },
            some { call := w.calls }) := by
        simp [Writer.Write, ha]
      rw [Writer.WriteAll, hw]
      simp

end io

namespace csv

/-- Reading a character that the reader accepts continues from the next
state. -/
theorem Reader.run_cons (p q : Reader) (c : Char) (cs : List Char) (h : p.step c = some q) :
    Reader.run p (c :: cs) = Reader.run q cs := by
  rw [Reader.run, h]

/-- A comma or a line feed, read at the start of a field, inside an unquoted
field or after the closing quote of a quoted field, ends the field or the
row. -/
theorem Reader.step_delimiter (p : Reader) (d : Char) (hd : d = ascii.comma ∨ d = ascii.lf)
    (hm : p.mode = Mode.fieldStart ∨ p.mode = Mode.unquoted ∨ p.mode = Mode.quoteSeen) :
    p.step d = some (p.close d) := by
  have h1 : ascii.comma ≠ ascii.dquote := by decide
  have h2 : ascii.lf ≠ ascii.dquote := by decide
  have h3 : ascii.lf ≠ ascii.comma := by decide
  rcases hd with rfl | rfl <;> rcases hm with hm | hm | hm <;>
    simp [Reader.step, Reader.close, hm, h1, h2, h3]

/-- A field that needs no quotes has no special character at its head, and its
tail needs no quotes either. -/
theorem fieldNeedsQuotes_cons (c : Char) (cs : List Char)
    (h : fieldNeedsQuotes (c :: cs) = false) :
    (c ≠ ascii.comma ∧ c ≠ ascii.dquote ∧ c ≠ ascii.lf ∧ c ≠ ascii.cr) ∧
      fieldNeedsQuotes cs = false := by
  simp only [fieldNeedsQuotes, List.any_cons, Bool.or_eq_false_iff, beq_eq_false_iff_ne,
    ne_eq] at h
  obtain ⟨⟨⟨⟨a, b⟩, c1⟩, d⟩, e⟩ := h
  exact ⟨⟨a, b, c1, d⟩, by simpa [fieldNeedsQuotes] using e⟩

/-- Reading an unquoted field and the delimiter after it: the reader collects
the characters of the field as they are. -/
theorem Reader.run_unquoted (d : Char) (hd : d = ascii.comma ∨ d = ascii.lf)
    (rest : List Char) (f : List Char) :
    ∀ p : Reader, fieldNeedsQuotes f = false →
      (p.mode = Mode.fieldStart ∨ p.mode = Mode.unquoted) →
      Reader.run p (f ++ d :: rest) =
        Reader.run (Reader.close d { p with field := f.reverse ++ p.field }) rest := by
  induction f with
  | nil =>
    intro p _ hm
    have hs := Reader.step_delimiter p d hd (by rcases hm with h | h <;> simp [h])
    rw [List.nil_append, Reader.run_cons _ _ _ _ hs]
    rfl
  | cons c cs ih =>
    intro p hf hm
    obtain ⟨⟨a1, a2, a3, a4⟩, hcs⟩ := fieldNeedsQuotes_cons c cs hf
    have hs : p.step c = some { p with mode := Mode.unquoted, field := c :: p.field } := by
      rcases hm with h | h <;> simp [Reader.step, h, a1, a2, a3, a4]
    rw [List.cons_append, Reader.run_cons _ _ _ _ hs,
      ih { p with mode := Mode.unquoted, field := c :: p.field } hcs (Or.inr rfl)]
    simp [Reader.close, Reader.endField, Reader.endRecord]

/-- Reading the body of a quoted field, its closing quote and the delimiter
after it: the reader collects the characters of the field, one quote
character for each doubled quote. -/
theorem Reader.run_quoted (d : Char) (hd : d = ascii.comma ∨ d = ascii.lf)
    (rest : List Char) (f : List Char) :
    ∀ p : Reader, p.mode = Mode.quoted →
      Reader.run p (escapeQuotes f ++ ascii.dquote :: d :: rest) =
        Reader.run (Reader.close d { p with field := f.reverse ++ p.field }) rest := by
  induction f with
  | nil =>
    intro p hm
    have hs : p.step ascii.dquote = some { p with mode := Mode.quoteSeen } := by
      simp [Reader.step, hm]
    have hs2 := Reader.step_delimiter { p with mode := Mode.quoteSeen } d hd
      (Or.inr (Or.inr rfl))
    rw [escapeQuotes, List.nil_append, Reader.run_cons _ _ _ _ hs, Reader.run_cons _ _ _ _ hs2]
    simp [Reader.close, Reader.endField, Reader.endRecord]
  | cons c cs ih =>
    intro p hm
    by_cases hc : c = ascii.dquote
    · subst hc
      have hs : p.step ascii.dquote = some { p with mode := Mode.quoteSeen } := by
        simp [Reader.step, hm]
      have hs2 : Reader.step { p with mode := Mode.quoteSeen } ascii.dquote =
          some { p with mode := Mode.quoted, field := ascii.dquote :: p.field } := by
        simp [Reader.step]
      rw [escapeQuotes, if_pos rfl, List.cons_append, List.cons_append,
        Reader.run_cons _ _ _ _ hs, Reader.run_cons _ _ _ _ hs2,
        ih { p with mode := Mode.quoted, field := ascii.dquote :: p.field } rfl]
      simp [Reader.close, Reader.endField, Reader.endRecord]
    · have hs : p.step c = some { p with field := c :: p.field } := by
        simp [Reader.step, hm, hc]
      rw [escapeQuotes, if_neg hc, List.cons_append, Reader.run_cons _ _ _ _ hs,
        ih { p with field := c :: p.field } hm]
      simp [Reader.close, Reader.endField, Reader.endRecord]

/-- Reading an encoded field and the delimiter after it from the start of a
field: the reader collects exactly the field that was encoded. -/
theorem Reader.run_encodeField (d : Char) (hd : d = ascii.comma ∨ d = ascii.lf)
    (rest : List Char) (f : List Char) (record : List (List Char))
    (records : List (List (List Char))) :
    Reader.run (Reader.start record records) (encodeField f ++ d :: rest) =
      Reader.run (Reader.close d
        { mode := Mode.fieldStart, field := f.reverse, record := record,
          records := records }) rest := by
  unfold encodeField
  by_cases hq : fieldNeedsQuotes f = true
  · have hs : (Reader.start record records).step ascii.dquote =
        some { mode := Mode.quoted, field := [], record := record, records := records } := by
      simp [Reader.step, Reader.start]
    rw [if_pos hq, List.cons_append, List.append_assoc, List.singleton_append,
      Reader.run_cons _ _ _ _ hs,
      Reader.run_quoted d hd rest f
        { mode := Mode.quoted, field := [], record := record, records := records } rfl]
    simp [Reader.close, Reader.endField, Reader.endRecord]
  · have hq2 : fieldNeedsQuotes f = false := by simpa using hq
    rw [if_neg hq, Reader.run_unquoted d hd rest f (Reader.start record records) hq2
      (Or.inl rfl)]
    simp [Reader.close, Reader.endField, Reader.endRecord, Reader.start]

/-- Reading an encoded row that has at least one field: the reader collects
exactly the fields that were encoded and completes the row. -/
theorem Reader.run_encodeRecord (rest : List Char) (fs : List (List Char)) :
    fs ≠ [] → ∀ (record : List (List Char)) (records : List (List (List Char))),
      Reader.run (Reader.start record records) (encodeRecord fs ++ rest) =
        Reader.run (Reader.start [] ((fs.reverse ++ record).reverse :: records)) rest := by
  have h3 : ascii.lf ≠ ascii.comma := by decide
  induction fs with
  | nil => intro h; exact absurd rfl h
  | cons f tl ih =>
    intro _ record records
    cases tl with
    | nil =>
      rw [encodeRecord, List.append_assoc, List.singleton_append,
        Reader.run_encodeField ascii.lf (Or.inr rfl)]
      simp [Reader.close, Reader.endRecord, Reader.start, h3]
    | cons g more =>
      rw [encodeRecord, List.append_assoc, List.cons_append,
        Reader.run_encodeField ascii.comma (Or.inl rfl)]
      have h := ih (List.cons_ne_nil g more) (f :: record) records
      simp only [Reader.start] at h
      simp only [Reader.close, if_true, Reader.endField, List.reverse_reverse, Reader.start]
      rw [h]
      simp

/-- Reading an encoded document whose rows all have at least one field: the
reader returns the rows read before followed by exactly the rows that were
encoded. -/
theorem Reader.run_document (rs : List (List (List Char))) :
    (∀ r ∈ rs, r ≠ []) → ∀ records : List (List (List Char)),
      Reader.run (Reader.start [] records) (rs.map encodeRecord).flatten =
        some (records.reverse ++ rs) := by
  induction rs with
  | nil => intro _ records; simp [Reader.run, Reader.finish, Reader.start]
  | cons r rs ih =>
    intro h records
    rw [List.map_cons, List.flatten_cons,
      Reader.run_encodeRecord _ r (h r (List.mem_cons_self r rs)) [] records,
      List.append_nil, List.reverse_reverse,
      ih (fun x hx => h x (List.mem_cons_of_mem r hx)) (r :: records)]
    simp

/-- CSV round trip of a whole document: decoding the text of the rows of a
result list gives back the header row and the fields of every result. -/
theorem decode_rows (results : List bouncer.LicenseResult) :
    decode ((rows results).map encodeRecord).flatten = some (rows results) := by
  have h : ∀ r ∈ rows results, r ≠ [] := by
    intro r hr
    simp only [rows, List.mem_cons, List.mem_map] at hr
    rcases hr with rfl | ⟨x, _, rfl⟩
    · simp [header]
    · simp [fields]
  rw [decode, Reader.run_document _ h []]
  simp

end csv

namespace presenter

variable {Opt : Type} [DecidableEq Opt]

/-- The four branches of the switch in GetPresenter: the value returned, with
the condition under which each branch is taken. -/
theorem GetPresenter_cases (k : Options Opt) (option : Opt)
    (results : List bouncer.LicenseResult) :
    (option = k.CSVPresenter ∧
        GetPresenter k option results = Presenter.ofCSV (csv.NewPresenter results)) ∨
      (option ≠ k.CSVPresenter ∧ option = k.JSONPresenter ∧
        GetPresenter k option results = Presenter.ofJSON (json.NewPresenter results)) ∨
      (option ≠ k.CSVPresenter ∧ option ≠ k.JSONPresenter ∧ option = k.TextPresenter ∧
        GetPresenter k option results = Presenter.ofText (text.NewPresenter results)) ∨
      (¬ k.Recognized option ∧ GetPresenter k option results = Presenter.nil) := by
  unfold GetPresenter
  by_cases h1 : option = k.CSVPresenter
  · exact Or.inl ⟨h1, by rw [if_pos h1]⟩
  · by_cases h2 : option = k.JSONPresenter
    · exact Or.inr (Or.inl ⟨h1, h2, by rw [if_neg h1, if_pos h2]⟩)
    · by_cases h3 : option = k.TextPresenter
      · exact Or.inr (Or.inr (Or.inl ⟨h1, h2, h3, by rw [if_neg h1, if_neg h2, if_pos h3]⟩))
      · refine Or.inr (Or.inr (Or.inr ⟨?_, by rw [if_neg h1, if_neg h2, if_neg h3]⟩))
        rintro (h | h | h)
        · exact h1 h
        · exact h2 h
        · exact h3 h

/-- C1: for every option of the enumeration (CSVPresenter, JSONPresenter,
TextPresenter) and every result list, the empty list included, GetPresenter
returns a renderer that is not nil. -/
theorem GetPresenter_recognized_ne_nil (k : Options Opt) (option : Opt)
    (results : List bouncer.LicenseResult) (h : k.Recognized option) :
    GetPresenter k option results ≠ Presenter.nil := by
  rcases GetPresenter_cases k option results with ⟨_, e⟩ | ⟨_, _, e⟩ | ⟨_, _, _, e⟩ | ⟨hn, _⟩
  · rw [e]; exact Presenter.noConfusion
  · rw [e]; exact Presenter.noConfusion
  · rw [e]; exact Presenter.noConfusion
  · exact absurd h hn

/-- Witness of C1: the JSON constant of the sample declaration with the empty
result list. -/
theorem GetPresenter_recognized_ne_nil_witness :
    Options.sample.Recognized 1 ∧ GetPresenter Options.sample 1 [] ≠ Presenter.nil :=
  ⟨by decide, GetPresenter_recognized_ne_nil Options.sample 1 [] (by decide)⟩

/-- C2: for every option that is none of CSVPresenter, JSONPresenter and
TextPresenter and every result list, GetPresenter returns the nil Presenter:
the value holds no renderer of any format. -/
theorem GetPresenter_unrecognized_eq_nil (k : Options Opt) (option : Opt)
    (results : List bouncer.LicenseResult) (h : ¬ k.Recognized option) :
    GetPresenter k option results = Presenter.nil ∧
      (GetPresenter k option results).format = none ∧
      (GetPresenter k option results).bound = none := by
  have h1 : option ≠ k.CSVPresenter := fun e => h (Or.inl e)
  have h2 : option ≠ k.JSONPresenter := fun e => h (Or.inr (Or.inl e))
  have h3 : option ≠ k.TextPresenter := fun e => h (Or.inr (Or.inr e))
  have hnil : GetPresenter k option results = Presenter.nil := by
    unfold GetPresenter
    rw [if_neg h1, if_neg h2, if_neg h3]
  rw [hnil]
  exact ⟨rfl, rfl, rfl⟩

/-- Witness of C2: the value 0, outside the sample declaration, with a result
list of one element. -/
theorem GetPresenter_unrecognized_eq_nil_witness :
    ¬ Options.sample.Recognized 0 ∧
      (GetPresenter Options.sample 0 [⟨"left-pad@1.0", "MIT", bouncer.Outcome.allowed⟩]
          = Presenter.nil ∧
        (GetPresenter Options.sample 0
          [⟨"left-pad@1.0", "MIT", bouncer.Outcome.allowed⟩]).format = none ∧
        (GetPresenter Options.sample 0
          [⟨"left-pad@1.0", "MIT", bouncer.Outcome.allowed⟩]).bound = none) :=
  ⟨by decide, GetPresenter_unrecognized_eq_nil Options.sample 0 _ (by decide)⟩

/-- C3: the factory is a one-to-one mapping that passes the result list
through unchanged. For every result list r, GetPresenter at CSVPresenter is
the CSV renderer constructed from r, at JSONPresenter the JSON renderer
constructed from r and at TextPresenter the text renderer constructed from r;
in each case the renderer is bound to r itself. -/
theorem GetPresenter_one_to_one (k : Options Opt) (hk : k.Distinct)
    (r : List bouncer.LicenseResult) :
    (GetPresenter k k.CSVPresenter r = Presenter.ofCSV (csv.NewPresenter r) ∧
      GetPresenter k k.JSONPresenter r = Presenter.ofJSON (json.NewPresenter r) ∧
      GetPresenter k k.TextPresenter r = Presenter.ofText (text.NewPresenter r)) ∧
    ((GetPresenter k k.CSVPresenter r).bound = some r ∧
      (GetPresenter k k.JSONPresenter r).bound = some r ∧
      (GetPresenter k k.TextPresenter r).bound = some r) := by
  obtain ⟨h12, h13, h23⟩ := hk
  have hc : GetPresenter k k.CSVPresenter r = Presenter.ofCSV (csv.NewPresenter r) := by
    unfold GetPresenter
    rw [if_pos rfl]
  have hj : GetPresenter k k.JSONPresenter r = Presenter.ofJSON (json.NewPresenter r) := by
    unfold GetPresenter
    rw [if_neg (Ne.symm h12), if_pos rfl]
  have ht : GetPresenter k k.TextPresenter r = Presenter.ofText (text.NewPresenter r) := by
    unfold GetPresenter
    rw [if_neg (Ne.symm h13), if_neg (Ne.symm h23), if_pos rfl]
  refine ⟨⟨hc, hj, ht⟩, ?_, ?_, ?_⟩
  · rw [hc]; rfl
  · rw [hj]; rfl
  · rw [ht]; rfl

/-- Witness of C3: the sample declaration, whose constants are distinct, with
a result list of two elements. -/
theorem GetPresenter_one_to_one_witness :
    Options.sample.Distinct ∧
    ((GetPresenter Options.sample Options.sample.CSVPresenter
          [⟨"b", "MIT", bouncer.Outcome.allowed⟩, ⟨"a", "", bouncer.Outcome.unknown⟩]
        = Presenter.ofCSV (csv.NewPresenter
          [⟨"b", "MIT", bouncer.Outcome.allowed⟩, ⟨"a", "", bouncer.Outcome.unknown⟩]) ∧
      GetPresenter Options.sample Options.sample.JSONPresenter
          [⟨"b", "MIT", bouncer.Outcome.allowed⟩, ⟨"a", "", bouncer.Outcome.unknown⟩]
        = Presenter.ofJSON (json.NewPresenter
          [⟨"b", "MIT", bouncer.Outcome.allowed⟩, ⟨"a", "", bouncer.Outcome.unknown⟩]) ∧
      GetPresenter Options.sample Options.sample.TextPresenter
          [⟨"b", "MIT", bouncer.Outcome.allowed⟩, ⟨"a", "", bouncer.Outcome.unknown⟩]
        = Presenter.ofText (text.NewPresenter
          [⟨"b", "MIT", bouncer.Outcome.allowed⟩, ⟨"a", "", bouncer.Outcome.unknown⟩])) ∧
    ((GetPresenter Options.sample Options.sample.CSVPresenter
          [⟨"b", "MIT", bouncer.Outcome.allowed⟩, ⟨"a", "", bouncer.Outcome.unknown⟩]).bound
        = some [⟨"b", "MIT", bouncer.Outcome.allowed⟩, ⟨"a", "", bouncer.Outcome.unknown⟩] ∧
      (GetPresenter Options.sample Options.sample.JSONPresenter
          [⟨"b", "MIT", bouncer.Outcome.allowed⟩, ⟨"a", "", bouncer.Outcome.unknown⟩]).bound
        = some [⟨"b", "MIT", bouncer.Outcome.allowed⟩, ⟨"a", "", bouncer.Outcome.unknown⟩] ∧
      (GetPresenter Options.sample Options.sample.TextPresenter
          [⟨"b", "MIT", bouncer.Outcome.allowed⟩, ⟨"a", "", bouncer.Outcome.unknown⟩]).bound
        = some [⟨"b", "MIT", bouncer.Outcome.allowed⟩, ⟨"a", "", bouncer.Outcome.unknown⟩])) :=
  ⟨by decide, GetPresenter_one_to_one Options.sample (by decide) _⟩

/-- Counterexample to C4: at the value 0, outside the sample declaration,
GetPresenter returns the nil interface value, not a typed error, and invoking
Present on what the caller received is a nil dereference. -/
theorem GetPresenter_typed_error_counterexample :
    ¬ Options.sample.Recognized 0 ∧
      GetPresenter Options.sample 0 [] = Presenter.nil ∧
      (GetPresenter Options.sample 0 []).Present io.Writer.buffer = none :=
  ⟨by decide, by decide, rfl⟩

/-- C4 as amended: GetPresenter has the single result type Presenter and
reports an unrecognized option as the nil interface value. The caller receives
nil exactly when the option is unrecognized, and invoking Present on the value
received is a nil dereference exactly in that case. -/
theorem GetPresenter_nil_iff_unrecognized (k : Options Opt) (option : Opt)
    (results : List bouncer.LicenseResult) (output : io.Writer) :
    (GetPresenter k option results = Presenter.nil ↔ ¬ k.Recognized option) ∧
      ((GetPresenter k option results).Present output = none ↔ ¬ k.Recognized option) := by
  rcases GetPresenter_cases k option results with ⟨h, e⟩ | ⟨_, h, e⟩ | ⟨_, _, h, e⟩ | ⟨hn, e⟩
  · have hr : k.Recognized option := Or.inl h
    rw [e]
    exact ⟨⟨fun x => Presenter.noConfusion x, fun x => absurd hr x⟩,
      ⟨fun x => Option.noConfusion x, fun x => absurd hr x⟩⟩
  · have hr : k.Recognized option := Or.inr (Or.inl h)
    rw [e]
    exact ⟨⟨fun x => Presenter.noConfusion x, fun x => absurd hr x⟩,
      ⟨fun x => Option.noConfusion x, fun x => absurd hr x⟩⟩
  · have hr : k.Recognized option := Or.inr (Or.inr h)
    rw [e]
    exact ⟨⟨fun x => Presenter.noConfusion x, fun x => absurd hr x⟩,
      ⟨fun x => Option.noConfusion x, fun x => absurd hr x⟩⟩
  · rw [e]
    exact ⟨⟨fun _ => hn, fun _ => rfl⟩, ⟨fun _ => hn, fun _ => rfl⟩⟩

/-- C5: one option selects one renderer. For every result list and any two
different options among CSVPresenter, JSONPresenter and TextPresenter, the two
renderers that GetPresenter returns are of two different formats; and the
value returned by one call has at most one format. -/
theorem GetPresenter_distinct_formats (k : Options Opt) (o1 o2 : Opt)
    (results : List bouncer.LicenseResult) (h1 : k.Recognized o1) (h2 : k.Recognized o2)
    (hne : o1 ≠ o2) :
    (∃ f1 f2, (GetPresenter k o1 results).format = some f1 ∧
        (GetPresenter k o2 results).format = some f2 ∧ f1 ≠ f2) ∧
      (∀ f g, (GetPresenter k o1 results).format = some f →
        (GetPresenter k o1 results).format = some g → f = g) := by
  refine ⟨?_, fun f g hf hg => Option.some.inj (hf.symm.trans hg)⟩
  rcases GetPresenter_cases k o1 results with
    ⟨a, e1⟩ | ⟨_, a, e1⟩ | ⟨_, _, a, e1⟩ | ⟨hn, _⟩ <;>
  rcases GetPresenter_cases k o2 results with
    ⟨b, e2⟩ | ⟨_, b, e2⟩ | ⟨_, _, b, e2⟩ | ⟨hm, _⟩ <;>
  first
    | exact absurd h1 hn
    | exact absurd h2 hm
    | exact absurd (a.trans b.symm) hne
    | (rw [e1, e2]; exact ⟨_, _, rfl, rfl, by decide⟩)

/-- Witness of C5: the CSV and the text constants of the sample declaration
with the empty result list. -/
theorem GetPresenter_distinct_formats_witness :
    (Options.sample.Recognized 3 ∧ Options.sample.Recognized 2 ∧ (3 : Nat) ≠ 2) ∧
    ((∃ f1 f2, (GetPresenter Options.sample 3 []).format = some f1 ∧
        (GetPresenter Options.sample 2 []).format = some f2 ∧ f1 ≠ f2) ∧
      (∀ f g, (GetPresenter Options.sample 3 []).format = some f →
        (GetPresenter Options.sample 3 []).format = some g → f = g)) :=
  ⟨⟨by decide, by decide, by decide⟩,
    GetPresenter_distinct_formats Options.sample 3 2 [] (by decide) (by decide) (by decide)⟩

/-- C10: whether GetPresenter returns a renderer or nil, and of which format,
depends on the option alone. For every option and any two result lists the
first call returns nil exactly when the second does, and the two values have
the same format. -/
theorem GetPresenter_format_independent_of_results (k : Options Opt) (option : Opt)
    (r1 r2 : List bouncer.LicenseResult) :
    (GetPresenter k option r1 = Presenter.nil ↔ GetPresenter k option r2 = Presenter.nil) ∧
      (GetPresenter k option r1).format = (GetPresenter k option r2).format := by
  rcases GetPresenter_cases k option r1 with
    ⟨a, e1⟩ | ⟨_, a, e1⟩ | ⟨_, _, a, e1⟩ | ⟨hn, e1⟩ <;>
  rcases GetPresenter_cases k option r2 with
    ⟨b, e2⟩ | ⟨b1, b, e2⟩ | ⟨b1, b2, b, e2⟩ | ⟨hm, e2⟩ <;>
  first
    | (rw [e1, e2]
       exact ⟨⟨fun x => Presenter.noConfusion x, fun x => Presenter.noConfusion x⟩, rfl⟩)
    | (rw [e1, e2]; exact ⟨Iff.rfl, rfl⟩)
    | exact absurd a b1
    | exact absurd a b2
    | exact absurd b ‹option ≠ k.CSVPresenter›
    | exact absurd b ‹option ≠ k.JSONPresenter›
    | exact absurd (Or.inl a) hm
    | exact absurd (Or.inr (Or.inl a)) hm
    | exact absurd (Or.inr (Or.inr a)) hm
    | exact absurd (Or.inl b) hn
    | exact absurd (Or.inr (Or.inl b)) hn
    | exact absurd (Or.inr (Or.inr b)) hn

/-- C7: for the empty result list, Present on the renderer that GetPresenter
returns at JSONPresenter, against an empty sink that accepts every write,
succeeds and leaves exactly the two-character document of an opening and a
closing square bracket in the sink. -/
theorem Present_json_empty (k : Options Opt) (hk : k.JSONPresenter ≠ k.CSVPresenter)
    (output : io.Writer) (hacc : ∀ i p, output.accepts i p = true)
    (hempty : output.written = []) :
    ∃ w, (GetPresenter k k.JSONPresenter []).Present output = some (w, none) ∧
      w.written = [ascii.lbracket, ascii.rbracket] ∧ String.mk w.written = "[]" := by
  have hg : GetPresenter k k.JSONPresenter [] = Presenter.ofJSON (json.NewPresenter []) := by
    unfold GetPresenter
    rw [if_neg hk, if_pos rfl]
  rw [hg]
  simp only [Presenter.Present, json.Presenter.Present, json.NewPresenter]
  rw [io.Writer.WriteAll_accepting _ output hacc]
  refine ⟨_, rfl, ?_, ?_⟩
  · simp [hempty, json.document, json.encodeElements]
  · simp only [hempty, json.document, json.encodeElements, List.map_nil, List.flatten_cons,
      List.flatten_nil, List.nil_append, List.append_nil, List.cons_append]
    decide

/-- Witness of C7: the sample declaration and the empty buffer. -/
theorem Present_json_empty_witness :
    (Options.sample.JSONPresenter ≠ Options.sample.CSVPresenter ∧
      (∀ i p, io.Writer.buffer.accepts i p = true) ∧ io.Writer.buffer.written = []) ∧
    ∃ w, (GetPresenter Options.sample Options.sample.JSONPresenter []).Present io.Writer.buffer
        = some (w, none) ∧
      w.written = [ascii.lbracket, ascii.rbracket] ∧ String.mk w.written = "[]" :=
  ⟨⟨by decide, fun _ _ => rfl, rfl⟩,
    Present_json_empty Options.sample (by decide) io.Writer.buffer (fun _ _ => rfl) rfl⟩

/-- C8: CSV round trip. For every result of the list (in particular one whose
license field contains a comma or a quote character), Present on the renderer
that GetPresenter returns at CSVPresenter succeeds on an empty sink that
accepts every write, and decoding the document left in the sink with a
standard CSV parser gives back exactly the license field of that result, in
the license column of its row. -/
theorem Present_csv_license_roundtrip (k : Options Opt)
    (results : List bouncer.LicenseResult) (output : io.Writer)
    (hacc : ∀ i p, output.accepts i p = true) (hempty : output.written = [])
    (n : Nat) (hn : n < results.length) :
    ∃ w, (GetPresenter k k.CSVPresenter results).Present output = some (w, none) ∧
      csv.cell (csv.decode w.written) (n + 1) 1 = some (results.get ⟨n, hn⟩).license := by
  have hg : GetPresenter k k.CSVPresenter results
      = Presenter.ofCSV (csv.NewPresenter results) := by
    unfold GetPresenter
    rw [if_pos rfl]
  rw [hg]
  simp only [Presenter.Present, csv.Presenter.Present, csv.NewPresenter]
  rw [io.Writer.WriteAll_accepting _ output hacc]
  refine ⟨_, rfl, ?_⟩
  simp only [hempty, List.nil_append]
  rw [csv.decode_rows]
  simp [csv.cell, csv.rows, csv.fields, List.getElem?_eq_getElem hn]

/-- Witness of C8: a result whose license field contains a comma and two
quote characters, in second place of a list of two results. -/
theorem Present_csv_license_roundtrip_witness :
    ((∀ i p, io.Writer.buffer.accepts i p = true) ∧ io.Writer.buffer.written = [] ∧
      1 < [(⟨"left-pad@1.0", "MIT", bouncer.Outcome.allowed⟩ : bouncer.LicenseResult),
        ⟨"x", "Apache-2.0, \"BSD\"", bouncer.Outcome.denied⟩].length) ∧
    ∃ w, (GetPresenter Options.sample Options.sample.CSVPresenter
          [⟨"left-pad@1.0", "MIT", bouncer.Outcome.allowed⟩,
            ⟨"x", "Apache-2.0, \"BSD\"", bouncer.Outcome.denied⟩]).Present io.Writer.buffer
        = some (w, none) ∧
      csv.cell (csv.decode w.written) (1 + 1) 1 = some "Apache-2.0, \"BSD\"" :=
  ⟨⟨fun _ _ => rfl, rfl, by decide⟩,
    Present_csv_license_roundtrip Options.sample
      [⟨"left-pad@1.0", "MIT", bouncer.Outcome.allowed⟩,
        ⟨"x", "Apache-2.0, \"BSD\"", bouncer.Outcome.denied⟩]
      io.Writer.buffer (fun _ _ => rfl) rfl 1 (by decide)⟩

/-- C9: for the renderer that GetPresenter returns at each option of the
enumeration (CSV, JSON, text), every result list and every sink, Present
returns, and if the sink rejected a write during the rendering then Present
returns an error: no renderer returns success after a rejected write. -/
theorem Present_reports_write_failure (k : Options Opt) (option : Opt)
    (results : List bouncer.LicenseResult) (output : io.Writer) (h : k.Recognized option) :
    ∃ w e, (GetPresenter k option results).Present output = some (w, e) ∧
      (w.rejected ≠ output.rejected → e ≠ none) := by
  rcases GetPresenter_cases k option results with ⟨_, g⟩ | ⟨_, _, g⟩ | ⟨_, _, _, g⟩ | ⟨hn, _⟩
  · rw [g]
    exact ⟨((csv.NewPresenter results).Present output).1,
      ((csv.NewPresenter results).Present output).2, rfl,
      fun hr he => hr (io.Writer.WriteAll_rejected _ output he)⟩
  · rw [g]
    exact ⟨((json.NewPresenter results).Present output).1,
      ((json.NewPresenter results).Present output).2, rfl,
      fun hr he => hr (io.Writer.WriteAll_rejected _ output he)⟩
  · rw [g]
    exact ⟨((text.NewPresenter results).Present output).1,
      ((text.NewPresenter results).Present output).2, rfl,
      fun hr he => hr (io.Writer.WriteAll_rejected _ output he)⟩
  · exact absurd h hn

/-- Witness of C9: the CSV renderer of one result against a sink that rejects
the second write, the one of the data row. -/
theorem Present_reports_write_failure_witness :
    Options.sample.Recognized 3 ∧
    ∃ w e, (GetPresenter Options.sample 3
          [⟨"left-pad@1.0", "MIT", bouncer.Outcome.allowed⟩]).Present (io.Writer.failingAt 1)
        = some (w, e) ∧
      (w.rejected ≠ (io.Writer.failingAt 1).rejected → e ≠ none) :=
  ⟨by decide, Present_reports_write_failure Options.sample 3 _ (io.Writer.failingAt 1)
    (by decide)⟩

end presenter

namespace presenter

/-- The example of the spec, rendered as JSON: one object with the three fixed
keys, inside an array. -/
theorem json_document_example :
    String.mk (json.document [⟨"left-pad@1.0", "MIT", bouncer.Outcome.allowed⟩])
      = "[\x7b\"dependency\":\"left-pad@1.0\",\"license\":\"MIT\",\"outcome\":\"allowed\"\x7d]" := by
  decide

/-- The example of the spec, rendered as CSV: the header row and one data
row. -/
theorem csv_rows_example :
    ((csv.rows [⟨"left-pad@1.0", "MIT", bouncer.Outcome.allowed⟩]).map
        (fun r => String.mk (csv.encodeRecord r)))
      = ["dependency,license,outcome\n", "left-pad@1.0,MIT,allowed\n"] := by
  decide

/-- A license field with a comma and quote characters is written between
quotes with its quote characters doubled. -/
theorem csv_encodeField_example :
    String.mk (csv.encodeField "Apache-2.0, \"BSD\"".toList) = "\"Apache-2.0, \"\"BSD\"\"\"" := by
  decide

/-- A text line of a result without a license identifier shows the
placeholder. -/
theorem text_line_example :
    String.mk (text.line ⟨"left-pad@1.0", "", bouncer.Outcome.unknown⟩)
      = "left-pad@1.0\tunknown\tunknown\n" := by
  decide

/-- A write failure injected in the middle of the rendering: each of the three
renderers returns the error of the rejected write. -/
theorem Present_failure_example :
    (((csv.NewPresenter [⟨"left-pad@1.0", "MIT", bouncer.Outcome.allowed⟩]).Present
          (io.Writer.failingAt 1)).2 = some ⟨1⟩ ∧
      ((csv.NewPresenter [⟨"left-pad@1.0", "MIT", bouncer.Outcome.allowed⟩]).Present
          (io.Writer.failingAt 1)).1.rejected = 1) ∧
    (((json.NewPresenter [⟨"left-pad@1.0", "MIT", bouncer.Outcome.allowed⟩]).Present
          (io.Writer.failingAt 0)).2 = some ⟨0⟩ ∧
      ((json.NewPresenter [⟨"left-pad@1.0", "MIT", bouncer.Outcome.allowed⟩]).Present
          (io.Writer.failingAt 0)).1.rejected = 1) ∧
    (((text.NewPresenter [⟨"a", "MIT", bouncer.Outcome.allowed⟩,
          ⟨"b", "ISC", bouncer.Outcome.denied⟩]).Present (io.Writer.failingAt 1)).2 = some ⟨1⟩ ∧
      ((text.NewPresenter [⟨"a", "MIT", bouncer.Outcome.allowed⟩,
          ⟨"b", "ISC", bouncer.Outcome.denied⟩]).Present (io.Writer.failingAt 1)).1.rejected
        = 1) := by
  decide

/-- Two calls one after the other, with the same arguments: the two values
returned are different references (each call constructs its own instance),
and both stand for the same renderer. -/
theorem GetPresenterIn_twice_example :
    (GetPresenterIn Options.sample 1 [⟨"a", "ISC", bouncer.Outcome.denied⟩] ⟨[]⟩).1
        = Value.ref 0 ∧
      (GetPresenterIn Options.sample 1 [⟨"a", "ISC", bouncer.Outcome.denied⟩]
          (GetPresenterIn Options.sample 1 [⟨"a", "ISC", bouncer.Outcome.denied⟩] ⟨[]⟩).2).1
        = Value.ref 1 ∧
      outcome Options.sample 1 [⟨"a", "ISC", bouncer.Outcome.denied⟩] ⟨[]⟩
        = some (Presenter.ofJSON ⟨[⟨"a", "ISC", bouncer.Outcome.denied⟩]⟩) ∧
      outcome Options.sample 1 [⟨"a", "ISC", bouncer.Outcome.denied⟩]
          (GetPresenterIn Options.sample 1 [⟨"a", "ISC", bouncer.Outcome.denied⟩] ⟨[]⟩).2
        = some (Presenter.ofJSON ⟨[⟨"a", "ISC", bouncer.Outcome.denied⟩]⟩) := by
  decide

end presenter
